import Mathlib

/-!
Verification of the BillLens receipt-parsing backend
(src/python-backend/services/receipt_parser.py).

The Python code is shallowly embedded: strings are Lean strings processed
as lists of characters, Python floats are idealized as rationals (ℚ) with
exact arithmetic, Python `round` is embedded as round-half-to-even on ℚ,
and fallible operations return Option.  Regular-expression matching
(Python `re` with `re.IGNORECASE`) is embedded by a small backtracking
engine over pattern ASTs that are hand-compiled from the regex literals in
the source; `re.finditer` / `re.search` semantics (leftmost match, lazy /
greedy alternative priority, non-overlapping scan) are reproduced by the
engine.  Python's `str.lower`, `str.strip`, `str.title`, `str.zfill` and
substring containment are embedded for the ASCII fragment, which covers
every character class the parser uses (the only non-ASCII character in
play, '₹', is unaffected by case mapping).
-/

namespace BillLens

/-! ### Character and string primitives (Python `str` operations) -/

def asciiLowerChar (c : Char) : Char :=
  if 'A' ≤ c ∧ c ≤ 'Z' then Char.ofNat (c.toNat + 32) else c

def asciiUpperChar (c : Char) : Char :=
  if 'a' ≤ c ∧ c ≤ 'z' then Char.ofNat (c.toNat - 32) else c

/-- Python `text.lower()` (ASCII fragment). -/
def asciiLower (s : String) : String := ⟨s.data.map asciiLowerChar⟩

/-- Python `\s` / `str.strip` whitespace set. -/
def isSpaceC (c : Char) : Bool :=
  c = ' ' || c = '\t' || c = '\n' || c = '\x0b' || c = '\x0c' || c = '\r'

def isDigitC (c : Char) : Bool := c.isDigit

/-- Embeds `needle.isPrefixOf hay` on character lists. -/
def isPrefixL : List Char → List Char → Bool
  | [], _ => true
  | _ :: _, [] => false
  | a :: as, b :: bs => a = b && isPrefixL as bs

/-- Python substring containment: `needle in hay`. -/
def containsSub : List Char → List Char → Bool
  | n, [] => isPrefixL n []
  | n, c :: t => isPrefixL n (c :: t) || containsSub n t

def containsStr (needle hay : String) : Bool := containsSub needle.data hay.data

/-- Python `str.strip()`. -/
def stripL (s : List Char) : List Char :=
  ((s.dropWhile isSpaceC).reverse.dropWhile isSpaceC).reverse

def pyStrip (s : String) : String := ⟨stripL s.data⟩

/-- Python `text.split('\n')`, accumulator form. -/
def splitNlGo : List Char → List Char → List (List Char)
  | [], acc => [acc.reverse]
  | c :: t, acc => if c = '\n' then acc.reverse :: splitNlGo t [] else splitNlGo t (c :: acc)

def splitNl (s : List Char) : List (List Char) := splitNlGo s []

def pyTitleGo : Bool → List Char → List Char
  | _, [] => []
  | prevAlpha, c :: t =>
    if c.isAlpha then
      (if prevAlpha then asciiLowerChar c else asciiUpperChar c) :: pyTitleGo true t
    else c :: pyTitleGo false t

/-- Python `str.title()` (ASCII fragment). -/
def pyTitle (s : String) : String := ⟨pyTitleGo false s.data⟩

/-- Python `str.zfill(2)` on an unsigned digit string. -/
def zfill2 (s : List Char) : List Char := List.replicate (2 - s.length) '0' ++ s

/-! ### Numbers: Python floats idealized as ℚ -/

/-- Round half to even to an integer, Python `round(q)` (idealized to exact
rational arithmetic). -/
def rhe (q : ℚ) : ℤ :=
  let f : ℤ := ⌊q⌋
  let r : ℚ := q - f
  if r < 1/2 then f else if 1/2 < r then f + 1 else if f % 2 = 0 then f else f + 1

/-- Python `round(q, 2)`. -/
def round2 (q : ℚ) : ℚ := (rhe (q * 100) : ℚ) / 100

def digitsVal (s : List Char) : Nat := s.foldl (fun a c => 10 * a + (c.toNat - 48)) 0

/-- Python `float(s)` on the strings produced by the amount-capturing
groups after comma removal: digits, optionally followed by a dot and more
digits (one of the two digit blocks may be empty, but not both). -/
def parseFloatL (s : List Char) : Option ℚ :=
  let ip := s.takeWhile isDigitC
  let rest := s.dropWhile isDigitC
  match rest with
  | [] => if ip.isEmpty then none else some (digitsVal ip : ℚ)
  | '.' :: fp =>
    if fp.all isDigitC then
      if ip.isEmpty && fp.isEmpty then none
      else some ((digitsVal ip : ℚ) + (digitsVal fp : ℚ) / ((10 : ℚ) ^ fp.length))
    else none
  | _ => none

/-- Embeds `float(group.replace(',', ''))`, as used on every captured amount. -/
def parseAmount (s : List Char) : Option ℚ := parseFloatL (s.filter (fun c => c ≠ ','))

/-- Python `max` over a nonempty list given as head and tail. -/
def pyMax (x : ℚ) (xs : List ℚ) : ℚ := xs.foldl (fun b a => if a > b then a else b) x

/-! ### A backtracking regex engine

Patterns of Python `re` are hand-compiled into this AST.  `mrun` enumerates
the ways a pattern can match a prefix of the input, in the priority order
of Python's backtracking engine (alternation left to right, greedy
repetitions longest first, lazy repetitions shortest first); the head of
the enumeration is Python's match.  `bol` is `^` without `re.MULTILINE`,
anchoring at absolute position 0, which is threaded through as `pos`. -/

/-- Captures: group index paired with the captured characters. -/
abbrev Caps := List (Nat × List Char)

inductive RE where
  | eps
  | bol
  | cls (p : Char → Bool)
  | cat (a b : RE)
  | alt (a b : RE)
  | rep (lo : Nat) (hi : Option Nat) (lzy : Bool) (r : RE)
  | grp (i : Nat) (r : RE)

/-- All matches of a pattern at a fixed start position, as
(captures, remaining input, end position), in backtracking priority
order.  A repetition step that consumes nothing is cut off, as in
Python.  The recursion is structural on a fuel that every recursive call
decrements, so the definition evaluates inside the kernel; `findAll`
supplies fuel that dominates the recursion depth. -/
def mrun : Nat → RE → List Char → Nat → List (Caps × List Char × Nat)
  | 0, _, _, _ => []
  | fuel + 1, re, s, pos =>
    match re with
    | .eps => [([], s, pos)]
    | .bol => if pos = 0 then [([], s, pos)] else []
    | .cls p =>
      match s with
      | [] => []
      | c :: t => if p c then [([], t, pos + 1)] else []
    | .cat a b =>
      (mrun fuel a s pos).flatMap (fun r1 =>
        (mrun fuel b r1.2.1 r1.2.2).map (fun r2 => (r1.1 ++ r2.1, r2.2.1, r2.2.2)))
    | .alt a b => mrun fuel a s pos ++ mrun fuel b s pos
    | .grp i r =>
      (mrun fuel r s pos).map (fun r1 => (r1.1 ++ [(i, s.take (r1.2.2 - pos))], r1.2.1, r1.2.2))
    | .rep lo hi lzy r =>
      if hi = some 0 then [([], s, pos)]
      else
        let more :=
          (mrun fuel r s pos).flatMap (fun r1 =>
            if r1.2.2 = pos then []
            else
              (mrun fuel (.rep (lo - 1) (hi.map (· - 1)) lzy r) r1.2.1 r1.2.2).map
                (fun r2 => (r1.1 ++ r2.1, r2.2.1, r2.2.2)))
        if lo > 0 then more
        else if lzy then ([], s, pos) :: more
        else more ++ [([], s, pos)]

/-- Structural size of a pattern, used to budget the engine fuel. -/
def sizeRE : RE → Nat
  | .eps => 1
  | .bol => 1
  | .cls _ => 1
  | .cat a b => sizeRE a + sizeRE b + 1
  | .alt a b => sizeRE a + sizeRE b + 1
  | .rep _ _ _ r => sizeRE r + 1
  | .grp _ r => sizeRE r + 1

/-- Python's match at a given position: the first alternative. -/
def matchAt (fuel : Nat) (re : RE) (s : List Char) (pos : Nat) : Option (Caps × Nat) :=
  (mrun fuel re s pos).head?.map (fun r => (r.1, r.2.2))

/-- Embeds `re.finditer` scan: try successive start positions, non-overlapping. -/
def findIterGo (fuel : Nat) (re : RE) : Nat → List Char → Nat → List (Caps × Nat × Nat)
  | 0, _, _ => []
  | fscan + 1, s, pos =>
    match matchAt fuel re s pos with
    | some (caps, endPos) =>
      if pos < endPos then
        (caps, pos, endPos) :: findIterGo fuel re fscan (s.drop (endPos - pos)) endPos
      else
        (caps, pos, endPos) ::
          (match s with
           | [] => []
           | _ :: t => findIterGo fuel re fscan t (pos + 1))
    | none =>
      match s with
      | [] => []
      | _ :: t => findIterGo fuel re fscan t (pos + 1)

/-- All matches in the text: `re.finditer(pattern, s)`, each as
(captures, start, end).  The match fuel `(len + 2) * (size + 2)` exceeds
the depth of any `mrun` recursion: every level of pattern structure costs
one unit and every repetition step consumes at least one character. -/
def findAll (re : RE) (s : List Char) : List (Caps × Nat × Nat) :=
  findIterGo ((s.length + 2) * (sizeRE re + 2)) re (s.length + 1) s 0

/-- Embeds `match.group(i)` for a capturing group (None when it did not take part). -/
def capStr (caps : Caps) (i : Nat) : Option (List Char) :=
  (caps.find? (fun p => p.1 = i)).map Prod.snd

/-- Embeds `match.group(1)` of a match, for the amount-capturing patterns whose
group 1 always participates. -/
def group1 (m : Caps × Nat × Nat) : List Char := (capStr m.1 1).getD []

/-! ### The regex literals of receipt_parser.py, compiled to `RE`

Every pattern in the source is applied with `re.IGNORECASE`; the literals
are all lower case, so a case-insensitive literal character compares the
lowered input character, and the classes `[A-Z]`, `[A-Za-z]` become "any
ASCII letter". -/

def lit1 (c : Char) : RE := .cls (fun x => asciiLowerChar x = c)

def litL : List Char → RE
  | [] => .eps
  | c :: t => .cat (lit1 c) (litL t)

def lit (s : String) : RE := litL s.data

def wsC : RE := .cls isSpaceC
def dC : RE := .cls isDigitC
def star (r : RE) : RE := .rep 0 none false r
def plus (r : RE) : RE := .rep 1 none false r
def plusLazy (r : RE) : RE := .rep 1 none true r
def opt (r : RE) : RE := .rep 0 (some 1) false r
def reps (lo hi : Nat) (r : RE) : RE := .rep lo (some hi) false r
def repsLazy (lo hi : Nat) (r : RE) : RE := .rep lo (some hi) true r

def alts : List RE → RE
  | [] => .eps
  | [r] => r
  | r :: t => .alt r (alts t)

def seqs : List RE → RE
  | [] => .eps
  | [r] => r
  | r :: t => .cat r (seqs t)

/-- Embeds `a\s+b` for two literal words. -/
def phrase2 (a b : String) : RE := seqs [lit a, plus wsC, lit b]

/-- Embeds `[\d,]` -/
def clsDigitComma : RE := .cls (fun c => isDigitC c || c = ',')
/-- Embeds `[^₹\n]` -/
def clsNotRupeeNl : RE := .cls (fun c => !(c = '₹' || c = '\n'))
/-- Embeds `[^₹]` -/
def clsNotRupee : RE := .cls (fun c => !(c = '₹'))
/-- Embeds `[A-Z]` / `[A-Za-z]` under `re.IGNORECASE` -/
def clsAlpha : RE := .cls (fun c => c.isAlpha)
/-- Embeds `[\s:]` (also `[:\s]`) -/
def clsWsColon : RE := .cls (fun c => isSpaceC c || c = ':')
/-- the date separator class: a slash or a dash -/
def clsSlashDash : RE := .cls (fun c => c = '/' || c = '-')

/-- Embeds `[\d,]+\.?\d*` — the amount shape. -/
def amtBody : RE := seqs [plus clsDigitComma, opt (lit1 '.'), star dC]

/-- Embeds `([\d,]+\.?\d*)` as group 1. -/
def amtGroup : RE := .grp 1 amtBody

/-- Embeds `[\s:]*₹?\s*([\d,]+\.?\d*)` — common tail of the total patterns. -/
def amtTail : RE := seqs [star clsWsColon, opt (lit1 '₹'), star wsC, amtGroup]

/-- Embeds `(?:grand\s+total|final\s+amount|amount\s+paid|total\s+payable|pay\s+amount|amount\s+to\s+pay|net\s+amount)[\s:]*₹?\s*([\d,]+\.?\d*)` -/
def amtPat10 : RE :=
  .cat (alts [phrase2 "grand" "total", phrase2 "final" "amount", phrase2 "amount" "paid",
              phrase2 "total" "payable", phrase2 "pay" "amount",
              seqs [lit "amount", plus wsC, lit "to", plus wsC, lit "pay"],
              phrase2 "net" "amount"]) amtTail

/-- Embeds `(?:bill\s+total|total\s+bill|final\s+bill|amount\s+payable)[\s:]*₹?\s*([\d,]+\.?\d*)` -/
def amtPat9a : RE :=
  .cat (alts [phrase2 "bill" "total", phrase2 "total" "bill", phrase2 "final" "bill",
              phrase2 "amount" "payable"]) amtTail

/-- Embeds `(?:total\s+due|amount\s+due|bill\s+amount|outstanding|balance\s+due)[\s:]*₹?\s*([\d,]+\.?\d*)` -/
def amtPat9b : RE :=
  .cat (alts [phrase2 "total" "due", phrase2 "amount" "due", phrase2 "bill" "amount",
              lit "outstanding", phrase2 "balance" "due"]) amtTail

/-- Embeds `(?:amount|paid|transaction\s+amount|payment\s+amount)[\s:]*₹\s*([\d,]+\.?\d*)` -/
def amtPat8 : RE :=
  seqs [alts [lit "amount", lit "paid", phrase2 "transaction" "amount",
              phrase2 "payment" "amount"],
        star clsWsColon, lit1 '₹', star wsC, amtGroup]

/-- Embeds `(?:^|\n)\s*total[\s:]*₹?\s*([\d,]+\.?\d*)` -/
def amtPat7 : RE :=
  seqs [.alt .bol (lit1 '\n'), star wsC, lit "total", star clsWsColon, opt (lit1 '₹'),
        star wsC, amtGroup]

/-- Embeds `₹\s*([\d,]+\.?\d*)` -/
def amtPat3 : RE := seqs [lit1 '₹', star wsC, amtGroup]

/-- The priority/pattern table of `_extract_amount`. -/
def amountPatterns : List (ℤ × RE) :=
  [(10, amtPat10), (9, amtPat9a), (9, amtPat9b), (8, amtPat8), (7, amtPat7), (3, amtPat3)]

/-- Embeds `(\d{1,2})` sep `(\d{1,2})` sep `(\d{2,4})` with sep the slash-or-dash class -/
def datePat1 : RE :=
  seqs [.grp 1 (reps 1 2 dC), clsSlashDash, .grp 2 (reps 1 2 dC), clsSlashDash,
        .grp 3 (reps 2 4 dC)]

/-- Embeds `(\d{1,2})\s+(jan|feb|mar|apr|may|jun|jul|aug|sep|oct|nov|dec)\s+(\d{2,4})` -/
def datePat2 : RE :=
  seqs [.grp 1 (reps 1 2 dC), plus wsC,
        .grp 2 (alts [lit "jan", lit "feb", lit "mar", lit "apr", lit "may", lit "jun",
                      lit "jul", lit "aug", lit "sep", lit "oct", lit "nov", lit "dec"]),
        plus wsC, .grp 3 (reps 2 4 dC)]

/-- Embeds `(\d{1,2}):(\d{2})\s*(am|pm)?` -/
def timePat1 : RE :=
  seqs [.grp 1 (reps 1 2 dC), lit1 ':', .grp 2 (reps 2 2 dC), star wsC,
        opt (.grp 3 (alts [lit "am", lit "pm"]))]

/-- Embeds `time[:\s]+(\d{1,2}):(\d{2})` -/
def timePat2 : RE :=
  seqs [lit "time", plus clsWsColon, .grp 1 (reps 1 2 dC), lit1 ':', .grp 2 (reps 2 2 dC)]

/-- Embeds `(\d+)\s*x\s*([^₹\n]+?)\s*₹\s*([\d,]+\.?\d*)` -/
def itemPat1 : RE :=
  seqs [.grp 1 (plus dC), star wsC, lit1 'x', star wsC, .grp 2 (plusLazy clsNotRupeeNl),
        star wsC, lit1 '₹', star wsC, .grp 3 amtBody]

/-- Embeds `([A-Z][^₹\n]{2,50}?)\s+₹\s*([\d,]+\.?\d*)` -/
def itemPat2 : RE :=
  seqs [.grp 1 (.cat clsAlpha (repsLazy 2 50 clsNotRupeeNl)), plus wsC, lit1 '₹',
        star wsC, .grp 2 amtBody]

/-- Embeds `([A-Z][^₹\n]{2,50}?)\s*-\s*₹\s*([\d,]+\.?\d*)` -/
def itemPat3 : RE :=
  seqs [.grp 1 (.cat clsAlpha (repsLazy 2 50 clsNotRupeeNl)), star wsC, lit1 '-',
        star wsC, lit1 '₹', star wsC, .grp 2 amtBody]

/-- Embeds `([A-Z][^₹\n]{2,50}?)\s*\(\s*₹\s*([\d,]+\.?\d*)\s*\)` -/
def itemPat4 : RE :=
  seqs [.grp 1 (.cat clsAlpha (repsLazy 2 50 clsNotRupeeNl)), star wsC, lit1 '(',
        star wsC, lit1 '₹', star wsC, .grp 2 amtBody, star wsC, lit1 ')']

/-- Embeds `([A-Za-z][^₹\n]{2,50}?)\s*₹\s*([\d,]+\.[\d]{2})` -/
def itemPat5 : RE :=
  seqs [.grp 1 (.cat clsAlpha (repsLazy 2 50 clsNotRupeeNl)), star wsC, lit1 '₹',
        star wsC, .grp 2 (seqs [plus clsDigitComma, lit1 '.', reps 2 2 dC])]

/-- The `(pattern, has_qty)` table of `_extract_items`. -/
def item_patterns : List (RE × Bool) :=
  [(itemPat1, true), (itemPat2, false), (itemPat3, false), (itemPat4, false),
   (itemPat5, false)]

/-- Embeds `(?:^|\n)\s*(?:tax|gst|vat|cgst|sgst|igst)[:\s]+₹?\s*([\d,]+\.?\d*)` -/
def taxPat1 : RE :=
  seqs [.alt .bol (lit1 '\n'), star wsC,
        alts [lit "tax", lit "gst", lit "vat", lit "cgst", lit "sgst", lit "igst"],
        plus clsWsColon, opt (lit1 '₹'), star wsC, amtGroup]

/-- Embeds `(?:tax\s+amount|gst\s+amount|vat\s+amount)[:\s]+₹?\s*([\d,]+\.?\d*)` -/
def taxPat2 : RE :=
  seqs [alts [phrase2 "tax" "amount", phrase2 "gst" "amount", phrase2 "vat" "amount"],
        plus clsWsColon, opt (lit1 '₹'), star wsC, amtGroup]

/-- Embeds `(?:subtotal|items\s+total)[^₹]*tax[:\s]+₹?\s*([\d,]+\.?\d*)` -/
def taxPat3 : RE :=
  seqs [alts [lit "subtotal", phrase2 "items" "total"], star clsNotRupee, lit "tax",
        plus clsWsColon, opt (lit1 '₹'), star wsC, amtGroup]

def taxPatterns : List RE := [taxPat1, taxPat2, taxPat3]

/-- Embeds `delivery\s+(?:fee|charges?|charge)[:\s]+₹?\s*([\d,]+\.?\d*)` -/
def delPat1 : RE :=
  seqs [lit "delivery", plus wsC,
        alts [lit "fee", .cat (lit "charge") (opt (lit1 's')), lit "charge"],
        plus clsWsColon, opt (lit1 '₹'), star wsC, amtGroup]

/-- Embeds `(?:^|\n)\s*delivery[:\s]+₹?\s*([\d,]+\.?\d*)` -/
def delPat2 : RE :=
  seqs [.alt .bol (lit1 '\n'), star wsC, lit "delivery", plus clsWsColon, opt (lit1 '₹'),
        star wsC, amtGroup]

/-- Embeds `delivery\s+(?:fee|charges?)\s+₹\s*([\d,]+\.?\d*)` -/
def delPat3 : RE :=
  seqs [lit "delivery", plus wsC, alts [lit "fee", .cat (lit "charge") (opt (lit1 's'))],
        plus wsC, lit1 '₹', star wsC, amtGroup]

def deliveryPatterns : List RE := [delPat1, delPat2, delPat3]

/-- Embeds `(?:platform|convenience|service)\s+(?:fee|charges?)[:\s]+₹?\s*([\d,]+\.?\d*)` -/
def platPat1 : RE :=
  seqs [alts [lit "platform", lit "convenience", lit "service"], plus wsC,
        alts [lit "fee", .cat (lit "charge") (opt (lit1 's'))],
        plus clsWsColon, opt (lit1 '₹'), star wsC, amtGroup]

/-- Embeds `(?:platform|convenience)\s+(?:fee|charges?)\s+₹\s*([\d,]+\.?\d*)` -/
def platPat2 : RE :=
  seqs [alts [lit "platform", lit "convenience"], plus wsC,
        alts [lit "fee", .cat (lit "charge") (opt (lit1 's'))],
        plus wsC, lit1 '₹', star wsC, amtGroup]

/-- Embeds `convenience\s+charge[:\s]+₹?\s*([\d,]+\.?\d*)` -/
def platPat3 : RE :=
  seqs [lit "convenience", plus wsC, lit "charge", plus clsWsColon, opt (lit1 '₹'),
        star wsC, amtGroup]

def platformPatterns : List RE := [platPat1, platPat2, platPat3]

/-- Embeds `discount[:\s]+-?₹?\s*([\d,]+\.?\d*)` -/
def discPat1 : RE :=
  seqs [lit "discount", plus clsWsColon, opt (lit1 '-'), opt (lit1 '₹'), star wsC, amtGroup]

/-- Embeds `(?:offer|promo|promotion|savings|you\s+saved)[:\s]+-?₹?\s*([\d,]+\.?\d*)` -/
def discPat2 : RE :=
  seqs [alts [lit "offer", lit "promo", lit "promotion", lit "savings",
              phrase2 "you" "saved"],
        plus clsWsColon, opt (lit1 '-'), opt (lit1 '₹'), star wsC, amtGroup]

/-- Embeds `discount\s+-?₹\s*([\d,]+\.?\d*)` -/
def discPat3 : RE :=
  seqs [lit "discount", plus wsC, opt (lit1 '-'), lit1 '₹', star wsC, amtGroup]

/-- Embeds `(?:discount|offer|promo)[^₹]*-?\s*₹\s*([\d,]+\.?\d*)` -/
def discPat4 : RE :=
  seqs [alts [lit "discount", lit "offer", lit "promo"], star clsNotRupee, opt (lit1 '-'),
        star wsC, lit1 '₹', star wsC, amtGroup]

def discountPatterns : List RE := [discPat1, discPat2, discPat3, discPat4]

/-! ### The extractors of ReceiptParser -/

/-- Embeds `KNOWN_MERCHANTS`.  In the source this is a Python `set` literal; its
iteration order is modelled as the literal (insertion) order. -/
def KNOWN_MERCHANTS : List String :=
  ["swiggy", "zomato", "uber eats", "blinkit", "bigbasket", "zepto",
   "phonepe", "google pay", "paytm", "bhim", "cred",
   "amazon", "flipkart", "myntra",
   "domino", "pizza hut", "kfc", "mcdonald"]

/-- The loop "for merchant in KNOWN_MERCHANTS: if merchant in normalized". -/
def findKnown : List String → String → Option String
  | [], _ => none
  | m :: t, normalized => if containsStr m normalized then some m else findKnown t normalized

/-- Embeds `ReceiptParser._extract_merchant(text, normalized, hint)`. -/
def extract_merchant (text normalized : String) (hint : Option String) : String :=
  if hint.getD "" ≠ "" then pyTitle (hint.getD "")
  else
    match findKnown KNOWN_MERCHANTS normalized with
    | some m => pyTitle m
    | none =>
      match splitNl text.data with
      | [] => "Unknown Merchant"
      | l0 :: _ =>
        let first_line := stripL l0
        if first_line ≠ [] ∧ first_line.length < 50 then ⟨first_line⟩
        else "Unknown Merchant"

/-- One candidate of `_extract_amount`: parsed amount and rule priority. -/
structure Cand where
  amount : ℚ
  priority : ℤ
deriving DecidableEq, Repr

/-- One iteration of the candidate loop of `_extract_amount`: state is
(`seen_amounts` as a list of rounded keys, `candidates`), input is
(rule priority, captured group-1 string). -/
def amountStep (st : List ℚ × List Cand) (pm : ℤ × List Char) : List ℚ × List Cand :=
  match parseAmount pm.2 with
  | none => st
  | some a =>
    if 10 ≤ a ∧ a ≤ 100000 then
      if round2 a ∈ st.1 then st
      else (st.1 ++ [round2 a], st.2 ++ [⟨a, pm.1⟩])
    else st

/-- The `candidates` list built by `_extract_amount`, over the per-rule
match lists (rules in table order, matches of one rule in text order). -/
def amountCandidates (rules : List (ℤ × List (List Char))) : List Cand :=
  ((rules.flatMap (fun r => r.2.map (fun s => (r.1, s)))).foldl amountStep ([], [])).2

/-- The sort key comparison of `_extract_amount`: `x` strictly precedes
`b` under the key `(-priority, -amount)`. -/
def candBetter (b x : Cand) : Bool :=
  x.priority > b.priority || (x.priority = b.priority && x.amount > b.amount)

/-- Embeds `candidates.sort(key=lambda x: (-priority, -amount)); candidates[0]` —
the head of the stable sort is the first strictly-maximal element. -/
def selectCand : List Cand → Option Cand
  | [] => none
  | c :: t => some (t.foldl (fun b x => if candBetter b x then x else b) c)

/-- Embeds `_extract_amount` given the captured matches of each rule. -/
def extract_amount_matches (rules : List (ℤ × List (List Char))) : ℚ :=
  match selectCand (amountCandidates rules) with
  | none => 0
  | some c => c.amount

/-- Embeds `ReceiptParser._extract_amount(normalized)`. -/
def extract_amount (normalized : String) : ℚ :=
  extract_amount_matches
    (amountPatterns.map (fun pr => (pr.1, (findAll pr.2 normalized.data).map group1)))

/-- One step of a fee/tax/discount candidate loop: parse the captured
string, keep it when the range check passes. -/
def feeCandStep (valid : ℚ → Bool) (acc : List ℚ) (s : List Char) : List ℚ :=
  match parseAmount s with
  | none => acc
  | some a => if valid a then acc ++ [a] else acc

/-- The `candidates` list of a fee-style extractor over all captured
group-1 strings (patterns in table order, matches in text order). -/
def feeCandidates (valid : ℚ → Bool) (ms : List (List Char)) : List ℚ :=
  ms.foldl (feeCandStep valid) []

/-- Embeds `0 < amount <= 5000` -/
def taxValid (a : ℚ) : Bool := 0 < a && a ≤ 5000
/-- Embeds `0 <= amount <= 500` -/
def deliveryValid (a : ℚ) : Bool := 0 ≤ a && a ≤ 500
/-- Embeds `0 <= amount <= 100` -/
def platformValid (a : ℚ) : Bool := 0 ≤ a && a ≤ 100
/-- Embeds `0 < amount <= 10000` -/
def discountValid (a : ℚ) : Bool := 0 < a && a ≤ 10000

/-- Embeds `_extract_tax` selection: `max(candidates) if candidates else None`. -/
def extract_tax_matches (ms : List (List Char)) : Option ℚ :=
  match feeCandidates taxValid ms with
  | [] => none
  | c :: t => some (pyMax c t)

/-- Embeds `_extract_delivery_fee` selection: `candidates[0] if candidates else None`. -/
def extract_delivery_matches (ms : List (List Char)) : Option ℚ :=
  (feeCandidates deliveryValid ms).head?

/-- Embeds `_extract_platform_fee` selection: `candidates[0] if candidates else None`. -/
def extract_platform_matches (ms : List (List Char)) : Option ℚ :=
  (feeCandidates platformValid ms).head?

/-- Embeds `_extract_discount` selection: `candidates[0] if candidates else None`. -/
def extract_discount_matches (ms : List (List Char)) : Option ℚ :=
  (feeCandidates discountValid ms).head?

/-- All group-1 captures of a pattern list on a text, patterns in table
order, matches of one pattern in text order. -/
def patternMatches (pats : List RE) (s : List Char) : List (List Char) :=
  pats.flatMap (fun p => (findAll p s).map group1)

/-- Embeds `ReceiptParser._extract_tax(normalized)`. -/
def extract_tax (normalized : String) : Option ℚ :=
  extract_tax_matches (patternMatches taxPatterns normalized.data)

/-- Embeds `ReceiptParser._extract_delivery_fee(normalized)`. -/
def extract_delivery_fee (normalized : String) : Option ℚ :=
  extract_delivery_matches (patternMatches deliveryPatterns normalized.data)

/-- Embeds `ReceiptParser._extract_platform_fee(normalized)`. -/
def extract_platform_fee (normalized : String) : Option ℚ :=
  extract_platform_matches (patternMatches platformPatterns normalized.data)

/-- Embeds `ReceiptParser._extract_discount(normalized)`. -/
def extract_discount (normalized : String) : Option ℚ :=
  extract_discount_matches (patternMatches discountPatterns normalized.data)

/-- Embeds `match.group(0)` of a match in text `s`. -/
def group0 (s : List Char) (m : Caps × Nat × Nat) : List Char :=
  (s.drop m.2.1).take (m.2.2 - m.2.1)

/-- The body of `_extract_date`'s loop for one match: returns the
formatted date when the matched text contains a separator, which is the
only way the loop ever returns. -/
def dateFromMatch (s : List Char) (m : Caps × Nat × Nat) : Option String :=
  if containsSub ['/'] (group0 s m) || containsSub ['-'] (group0 s m) then
    let day := (capStr m.1 1).getD []
    let month := (capStr m.1 2).getD []
    let year0 := (capStr m.1 3).getD []
    let year := if year0.length = 2 then '2' :: '0' :: year0 else year0
    some ⟨year ++ '-' :: (zfill2 month ++ '-' :: zfill2 day)⟩
  else none

/-- Embeds `ReceiptParser._extract_date(text)`. -/
def extract_date (text : String) : Option String :=
  let s := text.data
  match ((findAll datePat1 s).head?).bind (dateFromMatch s) with
  | some d => some d
  | none => ((findAll datePat2 s).head?).bind (dateFromMatch s)

/-- Embeds `f"{n:02d}"` for a nonnegative integer. -/
def fmt02 (n : Nat) : List Char := zfill2 (Nat.toDigits 10 n)

/-- The body of `_extract_time`'s loop for one match of `timePat1`
(groups: hour, minute, optional am/pm). -/
def timeFromMatch1 (m : Caps × Nat × Nat) : String :=
  let hour := digitsVal ((capStr m.1 1).getD [])
  let minute := (capStr m.1 2).getD []
  let hour :=
    match capStr m.1 3 with
    | some ap =>
      let apl := ap.map asciiLowerChar
      if apl = ['p', 'm'] ∧ hour < 12 then hour + 12
      else if apl = ['a', 'm'] ∧ hour = 12 then 0
      else hour
    | none => hour
  ⟨fmt02 hour ++ ':' :: minute⟩

/-- Embeds `ReceiptParser._extract_time(text)`. -/
def extract_time (text : String) : Option String :=
  let s := text.data
  match (findAll timePat1 s).head? with
  | some m => some (timeFromMatch1 m)
  | none =>
    match (findAll timePat2 s).head? with
    | some m => some ⟨fmt02 (digitsVal ((capStr m.1 1).getD [])) ++ ':' :: (capStr m.1 2).getD []⟩
    | none => none

/-- The `summary_keywords` set of `_extract_items` (membership tests only,
so the Python set is modelled as a list). -/
def summary_keywords : List String :=
  ["subtotal", "total", "tax", "delivery", "discount", "grand",
   "amount", "paid", "gst", "vat", "cgst", "sgst", "igst",
   "platform", "convenience", "service", "fee", "charges",
   "offer", "promo", "savings", "you saved", "packing",
   "tip", "service charge", "bill total", "final amount"]

/-- Embeds `any(keyword in s for keyword in summary_keywords)`. -/
def hasSummaryKw (s : List Char) : Bool :=
  summary_keywords.any (fun k => containsSub k.data s)

structure LineItem where
  name : String
  qty : ℚ
  price : ℚ
deriving DecidableEq, Repr

/-- Embeds `re.sub(r'\s+', ' ', name)`: collapse whitespace runs to one space. -/
def collapseWsGo : Bool → List Char → List Char
  | _, [] => []
  | inWs, c :: t =>
    if isSpaceC c then
      if inWs then collapseWsGo true t else ' ' :: collapseWsGo true t
    else c :: collapseWsGo false t

/-- Embeds `re.sub(r'[-\s]+$', '', name)`: drop trailing dashes and whitespace. -/
def stripTrailDashWs (s : List Char) : List Char :=
  (s.reverse.dropWhile (fun c => c = '-' || isSpaceC c)).reverse

/-- The per-match body of `_extract_items`: validate, dedup and build the
item; `some st` means the item was appended (Python then breaks out of the
match loop), `none` means this match was skipped. State is
(`seen_items` keys, `items`). -/
def procItemMatch (hasQty : Bool) (m : Caps × Nat × Nat)
    (st : List (List Char × ℚ) × List LineItem) :
    Option (List (List Char × ℚ) × List LineItem) :=
  let qty_str := if hasQty then (capStr m.1 1).getD [] else ['1']
  let nameRaw := if hasQty then stripL ((capStr m.1 2).getD []) else stripL ((capStr m.1 1).getD [])
  let price_str := if hasQty then (capStr m.1 3).getD [] else (capStr m.1 2).getD []
  let name := stripTrailDashWs (stripL (collapseWsGo false nameRaw))
  let nameLower := name.map asciiLowerChar
  if hasSummaryKw nameLower then none
  else if name.length < 2 || name.length > 50 then none
  else
    match parseAmount price_str with
    | none => none
    | some price =>
      match parseFloatL qty_str with
      | none => none
      | some qty =>
        if price ≤ 0 || price ≥ 10000 then none
        else
          let price_per_item := if qty > 0 then price / qty else price
          let key := (nameLower, round2 price_per_item)
          if key ∈ st.1 then none
          else some (st.1 ++ [key], st.2 ++ [⟨⟨name⟩, qty, price_per_item⟩])

/-- The match loop of `_extract_items` for one pattern on one line:
iterate until a match is accepted (then break) or matches run out. -/
def tryMatches (hasQty : Bool) (st : List (List Char × ℚ) × List LineItem) :
    List (Caps × Nat × Nat) → List (List Char × ℚ) × List LineItem
  | [] => st
  | m :: rest =>
    match procItemMatch hasQty m st with
    | some st' => st'
    | none => tryMatches hasQty st rest

/-- The per-line body of `_extract_items`: length filter, summary filter,
then the five patterns in order (each contributing at most one item). -/
def procLine (st : List (List Char × ℚ) × List LineItem) (line : List Char) :
    List (List Char × ℚ) × List LineItem :=
  let ls := stripL line
  if ls.length < 5 then st
  else if hasSummaryKw (ls.map asciiLowerChar) then st
  else item_patterns.foldl (fun st p => tryMatches p.2 st (findAll p.1 ls)) st

/-- Embeds `ReceiptParser._extract_items(text, normalized)` (the second argument
is unused in the source as well). -/
def extract_items (text _normalized : String) : List LineItem :=
  ((splitNl text.data).foldl procLine ([], [])).2

/-! ### ReceiptParser.parse -/

/-- The dictionary returned by `parse`.  The outer `Option` of the
optional fields records whether the key is present in the returned dict at
all: the empty-text early return produces a dict holding only
`merchant`, `total` and `items`. -/
structure ParsedReceipt where
  merchant : String
  total : ℚ
  items : List LineItem
  currency : Option String
  subtotal : Option ℚ
  date : Option (Option String)
  time : Option (Option String)
  tax : Option (Option ℚ)
  delivery_fee : Option (Option ℚ)
  platform_fee : Option (Option ℚ)
  discount : Option (Option ℚ)
deriving DecidableEq, Repr

/-- Python truthiness of an optional float (`None` and `0.0` are falsy). -/
def pyTruthy (o : Option ℚ) : Bool := o.getD 0 ≠ 0

/-- Embeds `if fee: subtotal -= fee`. -/
def subIf (s : ℚ) (o : Option ℚ) : ℚ := if pyTruthy o then s - o.getD 0 else s

/-- Embeds `if discount: subtotal += discount`. -/
def addIf (s : ℚ) (o : Option ℚ) : ℚ := if pyTruthy o then s + o.getD 0 else s

/-- Embeds `ReceiptParser.parse(text, hint, currency)`. -/
def parse (text : String) (hint : Option String) (currency : String) : ParsedReceipt :=
  if text = "" then
    ⟨"Unknown", 0, [], none, none, none, none, none, none, none, none⟩
  else
    let normalized := asciiLower text
    let merchant := extract_merchant text normalized hint
    let total := extract_amount normalized
    let date := extract_date text
    let time := extract_time text
    let items := extract_items text normalized
    let tax := extract_tax normalized
    let delivery_fee := extract_delivery_fee normalized
    let platform_fee := extract_platform_fee normalized
    let discount := extract_discount normalized
    let subtotal :=
      if items ≠ [] then (items.map (fun it => it.price * it.qty)).sum
      else max 0 (addIf (subIf (subIf (subIf total tax) delivery_fee) platform_fee) discount)
    ⟨merchant, total, items, some currency, some subtotal, some date, some time,
     some tax, some delivery_fee, some platform_fee, some discount⟩

/-! ### ReceiptParser.suggest_split -/

/-- The split suggestion dict (the `explanation` string, a formatted
message not touched by any claim, is not modelled). -/
structure SplitSuggestion where
  type : String
  amount_per_person : ℚ
  splits : Option (List (String × ℚ))
deriving DecidableEq, Repr

/-- Embeds `splits[member_id] = v` on an insertion-ordered Python dict. -/
def dictInsert (d : List (String × ℚ)) (k : String) (v : ℚ) : List (String × ℚ) :=
  match d with
  | [] => [(k, v)]
  | p :: t => if p.1 = k then (k, v) :: t else p :: dictInsert t k v

/-- The member loop of `suggest_split`: every member but the last gets
`amount_per_person`, the last gets `round(remaining, 2)`. -/
def splitGo (a : ℚ) : List String → ℚ → List (String × ℚ) → List (String × ℚ)
  | [], _, d => d
  | [m], remaining, d => dictInsert d m (round2 remaining)
  | m :: m2 :: rest, remaining, d => splitGo a (m2 :: rest) (remaining - a) (dictInsert d m a)

/-- Embeds `ReceiptParser.suggest_split(total, items, member_ids)`. -/
def suggest_split (total : ℚ) (items : List LineItem) (member_ids : List String) :
    Option SplitSuggestion :=
  if member_ids = [] then none
  else if total ≤ 0 then none
  else if items ≠ [] then
    some ⟨"item-based", round2 (total / member_ids.length), none⟩
  else
    let amount_per_person := round2 (total / member_ids.length)
    some ⟨"equal", amount_per_person, some (splitGo amount_per_person member_ids total [])⟩

/-! ### Auxiliary definitions used by the claim statements -/

/-- The last element of a member list (input order). -/
def lastStr : List String → String
  | [] => ""
  | [m] => m
  | _ :: m2 :: rest => lastStr (m2 :: rest)

/-- The value of an optional dict entry holding an optional amount:
0 when the key is missing or holds None. -/
def optVal (o : Option (Option ℚ)) : ℚ := (o.getD none).getD 0

/-- First position at which `needle` occurs in `hay` (Python `str.find`). -/
def firstIndexOfSub : List Char → List Char → Option Nat
  | n, [] => if isPrefixL n [] then some 0 else none
  | n, c :: t => if isPrefixL n (c :: t) then some 0 else (firstIndexOfSub n t).map (· + 1)

/-- Order on total candidates induced by the sort key
`(-priority, -amount)`: `x` does not precede `b`. -/
def candLE (x b : Cand) : Prop :=
  x.priority < b.priority ∨ (x.priority = b.priority ∧ x.amount ≤ b.amount)

/-- A sound total candidate for a given rule/match table: in the
plausible range and produced by parsing a match of one of the rules. -/
def CandOK (rules : List (ℤ × List (List Char))) (c : Cand) : Prop :=
  (10 ≤ c.amount ∧ c.amount ≤ 100000)
    ∧ ∃ r ∈ rules, c.priority = r.1 ∧ ∃ s ∈ r.2, parseAmount s = some c.amount

/-- Invariant of the `_extract_amount` loop state: `seen_amounts` is
exactly the list of rounded candidate keys, without duplicates. -/
def AmtInv (st : List ℚ × List Cand) : Prop :=
  st.1 = st.2.map (fun c => round2 c.amount) ∧ st.1.Nodup

/-! ## Theorems

### Rounding: lemmas for the split invariant -/

theorem rhe_intCast (n : ℤ) : rhe (n : ℚ) = n := by
  have hf : ⌊(n : ℚ)⌋ = n := Int.floor_intCast n
  simp only [rhe, hf]
  norm_num

theorem round2_cent (n : ℤ) : round2 ((n : ℚ) / 100) = (n : ℚ) / 100 := by
  have h : ((n : ℚ) / 100) * 100 = (n : ℚ) := by
    field_simp
  rw [round2, h, rhe_intCast]

theorem round2_is_cent (q : ℚ) : ∃ m : ℤ, round2 q = (m : ℚ) / 100 :=
  ⟨rhe (q * 100), rfl⟩

theorem dictInsert_append (d : List (String × ℚ)) (k : String) (v : ℚ)
    (h : ∀ p ∈ d, p.1 ≠ k) : dictInsert d k v = d ++ [(k, v)] := by
  induction d with
  | nil => rfl
  | cons p t ih =>
    simp only [dictInsert]
    rw [if_neg (h p (List.mem_cons_self p t)), ih fun q hq => h q (List.mem_cons_of_mem p hq)]
    rfl

theorem splitGo_spec (a : ℚ) :
    ∀ (ids : List String) (r : ℚ) (d : List (String × ℚ)),
      ids ≠ [] → ids.Nodup → (∀ p ∈ d, p.1 ∉ ids) →
      splitGo a ids r d =
        d ++ ids.dropLast.map (fun m => (m, a))
          ++ [(lastStr ids, round2 (r - ((ids.length - 1 : ℕ) : ℚ) * a))] := by
  intro ids
  induction ids with
  | nil => intro r d hne; exact absurd rfl hne
  | cons m t ih =>
    intro r d _ hnd hdisj
    cases t with
    | nil =>
      simp only [splitGo, lastStr, List.dropLast_single, List.map_nil, List.nil_append,
        List.length_cons, List.length_nil]
      rw [dictInsert_append d m (round2 r)
        (fun p hp => by simpa using hdisj p hp)]
      norm_num
    | cons m2 rest =>
      have hm : m ∉ m2 :: rest := (List.nodup_cons.mp hnd).1
      have hins : dictInsert d m a = d ++ [(m, a)] :=
        dictInsert_append d m a (fun p hp h => (hdisj p hp) (h ▸ List.mem_cons_self m _))
      have hdisj' : ∀ p ∈ d ++ [(m, a)], p.1 ∉ m2 :: rest := by
        intro p hp
        rcases List.mem_append.mp hp with h | h
        · exact fun hmem => hdisj p h (List.mem_cons_of_mem m hmem)
        · simp only [List.mem_singleton] at h
          subst h
          exact hm
      have := ih (r - a) (d ++ [(m, a)]) (List.cons_ne_nil m2 rest)
        (List.nodup_cons.mp hnd).2 hdisj'
      simp only [splitGo, hins, this, lastStr]
      have harg : (r - a) - (((m2 :: rest).length - 1 : ℕ) : ℚ) * a =
          r - (((m :: m2 :: rest).length - 1 : ℕ) : ℚ) * a := by
        simp only [List.length_cons]
        push_cast
        ring
      rw [harg]
      simp

theorem map_pair_snd_sum (l : List String) (a : ℚ) :
    ((l.map (fun m => (m, a))).map Prod.snd).sum = l.length * a := by
  induction l with
  | nil => simp
  | cons m t ih =>
    simp only [List.map_cons, List.sum_cons, ih, List.length_cons]
    push_cast
    ring

/-- C6: for every total T > 0 (at 0.01 granularity), every non-empty
duplicate-free ordered member list and an empty item list, `suggest_split`
returns an "equal" suggestion whose splits give `round(T/N, 2)` to every
member but the last (in input order), give the last member the running
remainder rounded to 2 decimals, and sum exactly to T. -/
theorem c6_equal_split_sums_to_total (total : ℚ) (ids : List String)
    (hpos : 0 < total) (hcent : ∃ n : ℤ, total = (n : ℚ) / 100)
    (hne : ids ≠ []) (hnd : ids.Nodup) :
    ∃ d, suggest_split total [] ids =
          some ⟨"equal", round2 (total / (ids.length : ℚ)), some d⟩
      ∧ d = ids.dropLast.map (fun m => (m, round2 (total / (ids.length : ℚ))))
            ++ [(lastStr ids,
                 round2 (total - ((ids.length - 1 : ℕ) : ℚ) * round2 (total / (ids.length : ℚ))))]
      ∧ (d.map Prod.snd).sum = total := by
  have hgo := splitGo_spec (round2 (total / (ids.length : ℚ))) ids total [] hne hnd (by simp)
  refine ⟨_, ?_, rfl, ?_⟩
  · unfold suggest_split
    rw [if_neg hne, if_neg (not_le.mpr hpos)]
    simp only [ne_eq, not_true_eq_false, if_false]
    rw [hgo]
    simp
  · obtain ⟨n, hn⟩ := hcent
    obtain ⟨ma, hma⟩ := round2_is_cent (total / (ids.length : ℚ))
    have hlast : total - ((ids.length - 1 : ℕ) : ℚ) * round2 (total / (ids.length : ℚ)) =
        ((n - (ids.length - 1 : ℕ) * ma : ℤ) : ℚ) / 100 := by
      rw [hma, hn]
      push_cast
      ring
    have hr2 : round2 (total - ((ids.length - 1 : ℕ) : ℚ) * round2 (total / (ids.length : ℚ))) =
        total - ((ids.length - 1 : ℕ) : ℚ) * round2 (total / (ids.length : ℚ)) := by
      rw [hlast, round2_cent]
    simp only [List.map_append, List.sum_append, map_pair_snd_sum, List.map_cons, List.map_nil,
      List.sum_cons, List.sum_nil, List.length_dropLast, hr2]
    ring

/-! ### Total extraction: candidate construction and selection -/

theorem amountStep_inv (st : List ℚ × List Cand) (p : ℤ × List Char) (h : AmtInv st) :
    AmtInv (amountStep st p) := by
  obtain ⟨h1, h2⟩ := h
  cases hpa : parseAmount p.2 with
  | none => simp only [amountStep, hpa]; exact ⟨h1, h2⟩
  | some a =>
    simp only [amountStep, hpa]
    by_cases hr : 10 ≤ a ∧ a ≤ 100000
    · rw [if_pos hr]
      by_cases hm : round2 a ∈ st.1
      · rw [if_pos hm]; exact ⟨h1, h2⟩
      · rw [if_neg hm]
        refine ⟨by simp [h1], ?_⟩
        simp only [List.nodup_append, List.nodup_cons, List.not_mem_nil, not_false_eq_true,
          List.nodup_nil, and_true, List.disjoint_singleton]
        exact ⟨h2, by simpa using hm⟩
    · rw [if_neg hr]; exact ⟨h1, h2⟩

theorem amountFold_inv (pairs : List (ℤ × List Char)) :
    ∀ st : List ℚ × List Cand, AmtInv st → AmtInv (pairs.foldl amountStep st) := by
  induction pairs with
  | nil => intro st h; exact h
  | cons p t ih => intro st h; exact ih _ (amountStep_inv st p h)

theorem amountFold_sound (pairs : List (ℤ × List Char)) :
    ∀ (st : List ℚ × List Cand) (c : Cand), c ∈ (pairs.foldl amountStep st).2 →
      c ∈ st.2 ∨ ((10 ≤ c.amount ∧ c.amount ≤ 100000)
        ∧ ∃ p ∈ pairs, c.priority = p.1 ∧ parseAmount p.2 = some c.amount) := by
  induction pairs with
  | nil => intro st c hc; exact Or.inl hc
  | cons p t ih =>
    intro st c hc
    rw [List.foldl_cons] at hc
    rcases ih _ c hc with hmem | ⟨hr, q, hq, hpr, hpa⟩
    · cases hpa : parseAmount p.2 with
      | none => simp only [amountStep, hpa] at hmem; exact Or.inl hmem
      | some a =>
        simp only [amountStep, hpa] at hmem
        by_cases hr : 10 ≤ a ∧ a ≤ 100000
        · rw [if_pos hr] at hmem
          by_cases hs : round2 a ∈ st.1
          · rw [if_pos hs] at hmem; exact Or.inl hmem
          · rw [if_neg hs] at hmem
            simp only [List.mem_append, List.mem_singleton] at hmem
            rcases hmem with hmem | rfl
            · exact Or.inl hmem
            · exact Or.inr ⟨hr, p, List.mem_cons_self p t, rfl, hpa⟩
        · rw [if_neg hr] at hmem; exact Or.inl hmem
    · exact Or.inr ⟨hr, q, List.mem_cons_of_mem p hq, hpr, hpa⟩

theorem amountFold_fst_mono (pairs : List (ℤ × List Char)) :
    ∀ (st : List ℚ × List Cand) (k : ℚ), k ∈ st.1 → k ∈ (pairs.foldl amountStep st).1 := by
  induction pairs with
  | nil => intro st k hk; exact hk
  | cons p t ih =>
    intro st k hk
    rw [List.foldl_cons]
    apply ih
    cases hpa : parseAmount p.2 with
    | none => simp only [amountStep, hpa]; exact hk
    | some a =>
      simp only [amountStep, hpa]
      by_cases hr : 10 ≤ a ∧ a ≤ 100000
      · rw [if_pos hr]
        by_cases hs : round2 a ∈ st.1
        · rw [if_pos hs]; exact hk
        · rw [if_neg hs]; exact List.mem_append_left _ hk
      · rw [if_neg hr]; exact hk

theorem amountFold_complete (pairs : List (ℤ × List Char)) :
    ∀ (st : List ℚ × List Cand) (p : ℤ × List Char), p ∈ pairs →
      ∀ a : ℚ, parseAmount p.2 = some a → 10 ≤ a → a ≤ 100000 →
      round2 a ∈ (pairs.foldl amountStep st).1 := by
  induction pairs with
  | nil => intro st p hp; exact absurd hp (List.not_mem_nil p)
  | cons q t ih =>
    intro st p hp a hpa h10 h100k
    rw [List.foldl_cons]
    rcases List.mem_cons.mp hp with rfl | hp
    · apply amountFold_fst_mono
      simp only [amountStep, hpa]
      rw [if_pos ⟨h10, h100k⟩]
      by_cases hs : round2 a ∈ st.1
      · rw [if_pos hs]; exact hs
      · rw [if_neg hs]; exact List.mem_append_right _ (List.mem_singleton_self _)
    · exact ih _ p hp a hpa h10 h100k

theorem candLE_refl (c : Cand) : candLE c c := Or.inr ⟨rfl, le_refl _⟩

theorem candLE_trans {a b c : Cand} (h1 : candLE a b) (h2 : candLE b c) : candLE a c := by
  rcases h1 with h1 | ⟨h1, h1a⟩ <;> rcases h2 with h2 | ⟨h2, h2a⟩
  · exact Or.inl (h1.trans h2)
  · exact Or.inl (h2 ▸ h1)
  · exact Or.inl (h1 ▸ h2)
  · exact Or.inr ⟨h1.trans h2, h1a.trans h2a⟩

theorem candLE_of_better {b x : Cand} (h : candBetter b x = true) : candLE b x := by
  unfold candBetter at h
  rcases Bool.or_eq_true_iff.mp h with h | h
  · exact Or.inl (by exact_mod_cast of_decide_eq_true h)
  · rcases Bool.and_eq_true_iff.mp h with ⟨h1, h2⟩
    exact Or.inr ⟨(of_decide_eq_true h1).symm, le_of_lt (of_decide_eq_true h2)⟩

theorem candLE_of_not_better {b x : Cand} (h : candBetter b x = false) : candLE x b := by
  unfold candBetter at h
  rcases Bool.or_eq_false_iff.mp h with ⟨h1, h2⟩
  have hp : ¬ x.priority > b.priority := of_decide_eq_false h1
  rcases lt_or_eq_of_le (not_lt.mp hp) with h | h
  · exact Or.inl h
  · rcases Bool.and_eq_false_iff.mp h2 with h3 | h3
    · exact absurd h (fun hh => of_decide_eq_false h3 hh)
    · exact Or.inr ⟨h, not_lt.mp (of_decide_eq_false h3)⟩

theorem selectFold_spec (t : List Cand) :
    ∀ c : Cand, (t.foldl (fun b x => if candBetter b x then x else b) c ∈ c :: t)
      ∧ ∀ x ∈ c :: t, candLE x (t.foldl (fun b x => if candBetter b x then x else b) c) := by
  induction t with
  | nil =>
    intro c
    exact ⟨List.mem_singleton_self c, by
      intro x hx
      rw [List.mem_singleton.mp hx]
      exact candLE_refl _⟩
  | cons y t ih =>
    intro c
    constructor
    · by_cases hb : candBetter c y = true
      · rw [List.foldl_cons, if_pos hb]
        exact List.mem_cons_of_mem c (ih y).1
      · rw [List.foldl_cons, if_neg hb]
        rcases List.mem_cons.mp (ih c).1 with h | h
        · rw [h]; exact List.mem_cons_self c _
        · exact List.mem_cons_of_mem c (List.mem_cons_of_mem y h)
    · intro x hx
      by_cases hb : candBetter c y = true
      · rw [List.foldl_cons, if_pos hb]
        rcases List.mem_cons.mp hx with rfl | hx
        · exact candLE_trans (candLE_of_better hb) ((ih y).2 y (List.mem_cons_self y t))
        · rcases List.mem_cons.mp hx with rfl | hx
          · exact (ih x).2 x (List.mem_cons_self x t)
          · exact (ih y).2 x (List.mem_cons_of_mem y hx)
      · rw [List.foldl_cons, if_neg hb]
        rcases List.mem_cons.mp hx with rfl | hx
        · exact (ih x).2 x (List.mem_cons_self x t)
        · rcases List.mem_cons.mp hx with rfl | hx
          · exact candLE_trans (candLE_of_not_better (by simpa using hb))
              ((ih c).2 c (List.mem_cons_self c t))
          · exact (ih c).2 x (List.mem_cons_of_mem c hx)

theorem selectCand_spec (c : Cand) (t : List Cand) :
    ∃ b, selectCand (c :: t) = some b ∧ b ∈ c :: t ∧ ∀ x ∈ c :: t, candLE x b := by
  obtain ⟨hmem, hdom⟩ := selectFold_spec t c
  exact ⟨_, rfl, hmem, hdom⟩

/-- C2: for every rule/match table (rules in table order, the matches of
one rule in text order, so that the relative text position of matches of
different rules is invisible to the computation): with no candidates the
result is 0; every candidate parses from some rule match with thousands
separators stripped and lies in the plausible range 10..100000; rounded
candidate values are pairwise distinct (equal-after-rounding matches
contribute one candidate, whichever rule produced them); and with
candidates present the result is the amount of a candidate that every
candidate is below in the order "higher priority first, then larger
amount" — in particular the result is determined by priority and amount
alone, never by text position. -/
theorem c2_total_selection (rules : List (ℤ × List (List Char))) :
    (amountCandidates rules = [] → extract_amount_matches rules = 0)
    ∧ (∀ c ∈ amountCandidates rules, CandOK rules c)
    ∧ ((amountCandidates rules).map (fun c => round2 c.amount)).Nodup
    ∧ (∀ r ∈ rules, ∀ s ∈ r.2, ∀ a : ℚ, parseAmount s = some a → 10 ≤ a → a ≤ 100000 →
        ∃ c ∈ amountCandidates rules, round2 c.amount = round2 a)
    ∧ (amountCandidates rules ≠ [] →
        ∃ b ∈ amountCandidates rules, extract_amount_matches rules = b.amount
          ∧ ∀ c ∈ amountCandidates rules, candLE c b) := by
  have hinv : AmtInv ((rules.flatMap (fun r => r.2.map (fun s => (r.1, s)))).foldl
      amountStep ([], [])) :=
    amountFold_inv _ ([], []) ⟨rfl, List.nodup_nil⟩
  refine ⟨?_, ?_, ?_, ?_, ?_⟩
  · intro h
    unfold extract_amount_matches
    rw [h]
    rfl
  · intro c hc
    rcases amountFold_sound _ ([], []) c hc with h | ⟨hr, p, hp, hpr, hpa⟩
    · exact absurd h (List.not_mem_nil c)
    · obtain ⟨r, hrr, hpmem⟩ := List.mem_flatMap.mp hp
      obtain ⟨s, hs, hps⟩ := List.mem_map.mp hpmem
      exact ⟨hr, r, hrr, by rw [hpr, ← hps], s, hs, by rw [← hpa, ← hps]⟩
  · unfold amountCandidates
    rw [← hinv.1]
    exact hinv.2
  · intro r hr s hs a hpa h10 hk
    have hp : (r.1, s) ∈ rules.flatMap (fun r => r.2.map (fun s => (r.1, s))) :=
      List.mem_flatMap.mpr ⟨r, hr, List.mem_map.mpr ⟨s, hs, rfl⟩⟩
    have hkey := amountFold_complete _ ([], []) (r.1, s) hp a hpa h10 hk
    rw [hinv.1] at hkey
    obtain ⟨c, hc, hck⟩ := List.mem_map.mp hkey
    exact ⟨c, hc, hck⟩
  · intro h
    obtain ⟨c, t, hct⟩ := List.exists_cons_of_ne_nil h
    obtain ⟨b, hsel, hmem, hdom⟩ := selectCand_spec c t
    refine ⟨b, hct ▸ hmem, ?_, ?_⟩
    · unfold extract_amount_matches
      rw [hct, hsel]
    · intro c' hc'
      exact hdom c' (hct ▸ hc')

unseal Rat.mul Rat.inv Rat.add Rat.sub in
/-- Witness for C2 at a concrete two-rule table: a priority-10 rule
matching "450" and a priority-3 rule matching "180". -/
theorem c2_total_selection_witness :
    ∃ b ∈ amountCandidates [((10 : ℤ), [['4', '5', '0']]), ((3 : ℤ), [['1', '8', '0']])],
      extract_amount_matches [((10 : ℤ), [['4', '5', '0']]), ((3 : ℤ), [['1', '8', '0']])]
          = b.amount
        ∧ ∀ c ∈ amountCandidates [((10 : ℤ), [['4', '5', '0']]), ((3 : ℤ), [['1', '8', '0']])],
            candLE c b :=
  (c2_total_selection [((10 : ℤ), [['4', '5', '0']]), ((3 : ℤ), [['1', '8', '0']])]).2.2.2.2
    (by decide)

/-! ### Fee-style extractors: candidate lists and selection policies -/

theorem feeCandidates_eq (valid : ℚ → Bool) (ms : List (List Char)) :
    feeCandidates valid ms =
      ms.filterMap (fun s => (parseAmount s).bind
        (fun a => if valid a then some a else none)) := by
  suffices h : ∀ acc, ms.foldl (feeCandStep valid) acc =
      acc ++ ms.filterMap (fun s => (parseAmount s).bind
        (fun a => if valid a then some a else none)) by
    simpa [feeCandidates] using h []
  induction ms with
  | nil => intro acc; simp
  | cons s t ih =>
    intro acc
    rw [List.foldl_cons, List.filterMap_cons]
    cases hpa : parseAmount s with
    | none =>
      simp only [feeCandStep, hpa, Option.none_bind]
      exact ih acc
    | some a =>
      by_cases hv : valid a
      · simp only [feeCandStep, hpa, if_pos hv, Option.some_bind]
        rw [ih]
        simp
      · simp only [feeCandStep, hpa, if_neg hv, Option.some_bind]
        exact ih acc

theorem pyMax_cons (c y : ℚ) (t : List ℚ) :
    pyMax c (y :: t) = pyMax (if y > c then y else c) t := rfl

theorem pyMax_spec (t : List ℚ) :
    ∀ c : ℚ, pyMax c t ∈ c :: t ∧ ∀ x ∈ c :: t, x ≤ pyMax c t := by
  induction t with
  | nil =>
    intro c
    refine ⟨List.mem_singleton_self c, ?_⟩
    intro x hx
    rw [List.mem_singleton.mp hx]
    exact le_refl _
  | cons y t ih =>
    intro c
    rw [pyMax_cons]
    constructor
    · by_cases hb : y > c
      · rw [if_pos hb]
        exact List.mem_cons_of_mem c (ih y).1
      · rw [if_neg hb]
        rcases List.mem_cons.mp (ih c).1 with h | h
        · rw [h]; exact List.mem_cons_self c _
        · exact List.mem_cons_of_mem c (List.mem_cons_of_mem y h)
    · intro x hx
      by_cases hb : y > c
      · rw [if_pos hb]
        rcases List.mem_cons.mp hx with rfl | hx
        · exact le_trans (le_of_lt hb) ((ih y).2 y (List.mem_cons_self y t))
        · rcases List.mem_cons.mp hx with rfl | hx
          · exact (ih x).2 x (List.mem_cons_self x t)
          · exact (ih y).2 x (List.mem_cons_of_mem y hx)
      · rw [if_neg hb]
        rcases List.mem_cons.mp hx with rfl | hx
        · exact (ih x).2 x (List.mem_cons_self x t)
        · rcases List.mem_cons.mp hx with rfl | hx
          · exact le_trans (not_lt.mp hb) ((ih c).2 c (List.mem_cons_self c t))
          · exact (ih c).2 x (List.mem_cons_of_mem c hx)

/-- C7: over the captured group-1 strings of the tax, delivery-fee,
platform-fee and discount extractors (patterns in table order, matches in
text order): candidates are exactly the parsed matches passing the
respective range filter — tax in (0, 5000], delivery in [0, 500],
platform in [0, 100], discount in (0, 10000]; tax returns the maximum
candidate, the other three return the first candidate, and each returns
None when no candidate passes.  The final conjunct runs the full discount
extractor on "Discount: -₹50": the leading negative sign is stripped by
the pattern before validation, so the discount is 50. -/
theorem c7_fee_selection_policies (mt md mp mc : List (List Char)) :
    (feeCandidates taxValid mt =
        mt.filterMap (fun s => (parseAmount s).bind
          (fun a => if 0 < a ∧ a ≤ 5000 then some a else none)))
    ∧ (feeCandidates taxValid mt = [] → extract_tax_matches mt = none)
    ∧ (feeCandidates taxValid mt ≠ [] →
        ∃ b, extract_tax_matches mt = some b ∧ b ∈ feeCandidates taxValid mt
          ∧ ∀ x ∈ feeCandidates taxValid mt, x ≤ b)
    ∧ extract_delivery_matches md =
        (md.filterMap (fun s => (parseAmount s).bind
          (fun a => if 0 ≤ a ∧ a ≤ 500 then some a else none))).head?
    ∧ extract_platform_matches mp =
        (mp.filterMap (fun s => (parseAmount s).bind
          (fun a => if 0 ≤ a ∧ a ≤ 100 then some a else none))).head?
    ∧ extract_discount_matches mc =
        (mc.filterMap (fun s => (parseAmount s).bind
          (fun a => if 0 < a ∧ a ≤ 10000 then some a else none))).head?
    ∧ extract_discount (asciiLower "Discount: -₹50") = some 50 := by
  have htax : (fun a : ℚ => if taxValid a then some a else none) =
      (fun a : ℚ => if 0 < a ∧ a ≤ 5000 then some a else none) := by
    funext a
    by_cases h1 : 0 < a <;> by_cases h2 : a ≤ 5000 <;> simp [taxValid, h1, h2]
  have hdel : (fun a : ℚ => if deliveryValid a then some a else none) =
      (fun a : ℚ => if 0 ≤ a ∧ a ≤ 500 then some a else none) := by
    funext a
    by_cases h1 : 0 ≤ a <;> by_cases h2 : a ≤ 500 <;> simp [deliveryValid, h1, h2]
  have hplat : (fun a : ℚ => if platformValid a then some a else none) =
      (fun a : ℚ => if 0 ≤ a ∧ a ≤ 100 then some a else none) := by
    funext a
    by_cases h1 : 0 ≤ a <;> by_cases h2 : a ≤ 100 <;> simp [platformValid, h1, h2]
  have hdisc : (fun a : ℚ => if discountValid a then some a else none) =
      (fun a : ℚ => if 0 < a ∧ a ≤ 10000 then some a else none) := by
    funext a
    by_cases h1 : 0 < a <;> by_cases h2 : a ≤ 10000 <;> simp [discountValid, h1, h2]
  refine ⟨?_, ?_, ?_, ?_, ?_, ?_, ?_⟩
  · rw [feeCandidates_eq, htax]
  · intro h
    simp only [extract_tax_matches, h]
  · intro h
    obtain ⟨c, t, hct⟩ := List.exists_cons_of_ne_nil h
    refine ⟨pyMax c t, ?_, ?_, ?_⟩
    · simp only [extract_tax_matches, hct]
    · exact hct ▸ (pyMax_spec t c).1
    · intro x hx
      exact (pyMax_spec t c).2 x (hct ▸ hx)
  · unfold extract_delivery_matches
    rw [feeCandidates_eq, hdel]
  · unfold extract_platform_matches
    rw [feeCandidates_eq, hplat]
  · unfold extract_discount_matches
    rw [feeCandidates_eq, hdisc]
  · decide

/-- Witness for C7 at concrete match tables: tax matches "50" and "30",
the other extractors match "45", "15" and "50". -/
theorem c7_fee_selection_policies_witness :
    ∃ b, extract_tax_matches [['5', '0'], ['3', '0']] = some b
      ∧ b ∈ feeCandidates taxValid [['5', '0'], ['3', '0']]
      ∧ ∀ x ∈ feeCandidates taxValid [['5', '0'], ['3', '0']], x ≤ b :=
  (c7_fee_selection_policies [['5', '0'], ['3', '0']] [['4', '5']] [['1', '5']]
    [['5', '0']]).2.2.1 (by decide)

/-- Witness for C6 at total 100 split among three members. -/
theorem c6_equal_split_sums_to_total_witness :
    ∃ d, suggest_split 100 [] ["a", "b", "c"] =
          some ⟨"equal", round2 (100 / ((["a", "b", "c"] : List String).length : ℚ)), some d⟩
      ∧ d = (["a", "b", "c"] : List String).dropLast.map
              (fun m => (m, round2 (100 / ((["a", "b", "c"] : List String).length : ℚ))))
            ++ [(lastStr ["a", "b", "c"],
                 round2 (100 - (((["a", "b", "c"] : List String).length - 1 : ℕ) : ℚ)
                   * round2 (100 / ((["a", "b", "c"] : List String).length : ℚ))))]
      ∧ (d.map Prod.snd).sum = 100 :=
  c6_equal_split_sums_to_total 100 ["a", "b", "c"] (by norm_num)
    ⟨10000, by norm_num⟩ (by simp) (by simp)

/-! ### Subtotal reconciliation -/

theorem subIf_eq (s : ℚ) (o : Option ℚ) : subIf s o = s - o.getD 0 := by
  cases o with
  | none => simp [subIf, pyTruthy]
  | some t =>
    by_cases h : t = 0 <;> simp [subIf, pyTruthy, h]

theorem addIf_eq (s : ℚ) (o : Option ℚ) : addIf s o = s + o.getD 0 := by
  cases o with
  | none => simp [addIf, pyTruthy]
  | some t =>
    by_cases h : t = 0 <;> simp [addIf, pyTruthy, h]

/-- C5 (amended to non-empty input): for every parse of a non-empty text,
the subtotal key is present and equals the sum of price × qty over the
items when the item list is non-empty, and otherwise equals
max(0, total − tax − delivery_fee − platform_fee + discount), an absent
tax, fee or discount counting as 0.  (On the empty text the subtotal key
is absent altogether, see the counterexample.) -/
theorem c5_subtotal_formula (text : String) (hint : Option String) (currency : String)
    (h : text ≠ "") :
    (parse text hint currency).subtotal =
      some (if (parse text hint currency).items = [] then
          max 0 ((parse text hint currency).total
            - optVal (parse text hint currency).tax
            - optVal (parse text hint currency).delivery_fee
            - optVal (parse text hint currency).platform_fee
            + optVal (parse text hint currency).discount)
        else ((parse text hint currency).items.map (fun it => it.price * it.qty)).sum) := by
  unfold parse
  rw [if_neg h]
  by_cases hi : extract_items text (asciiLower text) = []
  · simp [hi, optVal, subIf_eq, addIf_eq]
  · simp [hi, optVal, subIf_eq, addIf_eq]

/-- C5 counterexample: on the empty input the returned dict holds no
subtotal key at all, rather than the claimed max(0, ...) value. -/
theorem c5_subtotal_formula_cx : (parse "" none "INR").subtotal = none := rfl

/-- Witness for C5 at the concrete non-empty text "hi". -/
theorem c5_subtotal_formula_witness :
    (parse "hi" none "INR").subtotal =
      some (if (parse "hi" none "INR").items = [] then
          max 0 ((parse "hi" none "INR").total
            - optVal (parse "hi" none "INR").tax
            - optVal (parse "hi" none "INR").delivery_fee
            - optVal (parse "hi" none "INR").platform_fee
            + optVal (parse "hi" none "INR").discount)
        else ((parse "hi" none "INR").items.map (fun it => it.price * it.qty)).sum) :=
  c5_subtotal_formula "hi" none "INR" (by decide)

/-! ### Merchant resolution -/

theorem splitNlGo_ne_nil (s : List Char) : ∀ acc, splitNlGo s acc ≠ [] := by
  induction s with
  | nil => intro acc; simp [splitNlGo]
  | cons c t ih =>
    intro acc
    by_cases h : c = '\n'
    · simp [splitNlGo, h]
    · simpa [splitNlGo, h] using ih (c :: acc)

/-- C8 (amended): the merchant extractor resolves in order with the first
success winning: (1) a supplied non-empty hint is returned title-cased;
(2) otherwise the first catalog merchant (in catalog iteration order)
found case-insensitively in the text, title-cased; (3) otherwise the
stripped first physical line — the text up to the first newline — when it
is non-empty and its stripped length is below 50; (4) otherwise the
literal "Unknown Merchant".  The extractor never fails. -/
theorem c8_merchant_resolution (text : String) (hint : Option String) :
    (∀ h : String, hint = some h → h ≠ "" →
        extract_merchant text (asciiLower text) hint = pyTitle h)
    ∧ (hint.getD "" = "" →
        ∀ m, findKnown KNOWN_MERCHANTS (asciiLower text) = some m →
        extract_merchant text (asciiLower text) hint = pyTitle m)
    ∧ (hint.getD "" = "" → findKnown KNOWN_MERCHANTS (asciiLower text) = none →
        ∀ l0 rest, splitNl text.data = l0 :: rest →
        stripL l0 ≠ [] → (stripL l0).length < 50 →
        extract_merchant text (asciiLower text) hint = ⟨stripL l0⟩)
    ∧ (hint.getD "" = "" → findKnown KNOWN_MERCHANTS (asciiLower text) = none →
        ∀ l0 rest, splitNl text.data = l0 :: rest →
        ¬(stripL l0 ≠ [] ∧ (stripL l0).length < 50) →
        extract_merchant text (asciiLower text) hint = "Unknown Merchant") := by
  refine ⟨?_, ?_, ?_, ?_⟩
  · intro h hh hne
    subst hh
    simp [extract_merchant, hne]
  · intro hh m hm
    unfold extract_merchant
    rw [if_neg (by simpa using hh), hm]
  · intro hh hnone l0 rest hsplit hne hlen
    unfold extract_merchant
    rw [if_neg (by simpa using hh), hnone]
    simp only [splitNl] at hsplit
    simp only [splitNl, hsplit]
    rw [if_pos ⟨hne, hlen⟩]
  · intro hh hnone l0 rest hsplit hcond
    unfold extract_merchant
    rw [if_neg (by simpa using hh), hnone]
    simp only [splitNl] at hsplit
    simp only [splitNl, hsplit]
    rw [if_neg hcond]

/-- C8 counterexample: (a) for the text "\nTasty Cafe" (whose first
non-empty line is "Tasty Cafe"), the extractor returns "Unknown Merchant"
because only the physical first line, here empty, is consulted; (b) the
first-line result is stripped, not verbatim; (c) a supplied empty hint is
not title-cased and returned but skipped. -/
theorem c8_merchant_resolution_cx :
    extract_merchant "\nTasty Cafe" (asciiLower "\nTasty Cafe") none = "Unknown Merchant"
    ∧ extract_merchant "  Tasty Cafe  " (asciiLower "  Tasty Cafe  ") none = "Tasty Cafe"
    ∧ extract_merchant "zomato" (asciiLower "zomato") (some "") = "Zomato" := by
  refine ⟨?_, ?_, ?_⟩ <;> decide

/-- Witness for C8 on the concrete text "Cafe Mocha\nx" with no hint. -/
theorem c8_merchant_resolution_witness :
    extract_merchant "Cafe Mocha\nx" (asciiLower "Cafe Mocha\nx") none = "Cafe Mocha" := by
  have h := (c8_merchant_resolution "Cafe Mocha\nx" none).2.2.1 rfl (by decide)
    "Cafe Mocha".data ["x".data] (by decide) (by decide) (by decide)
  rw [h]
  decide

/-- C10: with no hint, the catalog loop decides the merchant by the
catalog's iteration order (modelled as the literal order of
KNOWN_MERCHANTS), not by position in the text: any text containing
"swiggy" resolves to "Swiggy" whatever else it contains and wherever;
any text containing "zomato" but not "swiggy" resolves to "Zomato"; and
in the concrete input "zomato swiggy", where "zomato" occurs first in the
text (index 0 versus 7), the result is still "Swiggy", not the
title-cased "zomato". -/
theorem c10_catalog_order_wins :
    (∀ text : String, containsStr "swiggy" (asciiLower text) = true →
        extract_merchant text (asciiLower text) none = "Swiggy")
    ∧ (∀ text : String, containsStr "swiggy" (asciiLower text) = false →
        containsStr "zomato" (asciiLower text) = true →
        extract_merchant text (asciiLower text) none = "Zomato")
    ∧ (firstIndexOfSub "zomato".data "zomato swiggy".data = some 0
        ∧ firstIndexOfSub "swiggy".data "zomato swiggy".data = some 7
        ∧ extract_merchant "zomato swiggy" (asciiLower "zomato swiggy") none = "Swiggy"
        ∧ pyTitle "zomato" ≠ "Swiggy") := by
  refine ⟨?_, ?_, ?_⟩
  · intro text h
    simp [extract_merchant, KNOWN_MERCHANTS, findKnown, h]
    decide
  · intro text h1 h2
    simp [extract_merchant, KNOWN_MERCHANTS, findKnown, h1, h2]
    decide
  · refine ⟨by decide, by decide, by decide, by decide⟩

/-- Witness for C10 on a concrete text containing "swiggy". -/
theorem c10_catalog_order_wins_witness :
    extract_merchant "order via swiggy" (asciiLower "order via swiggy") none = "Swiggy" :=
  c10_catalog_order_wins.1 "order via swiggy" (by decide)

/-! ### Concrete evaluations of the parser -/

/-- C1 (code bug): on the empty input text, for every hint and currency,
parse returns the partial dict of the early return — merchant "Unknown"
(not "Unknown Merchant"), total 0.0, empty items, and none of the
currency, subtotal, date, time, tax, delivery_fee, platform_fee or
discount keys that the docstring promises and that every non-empty parse
carries. -/
theorem c1_parse_empty_text_partial_record (hint : Option String) (currency : String) :
    parse "" hint currency =
      ⟨"Unknown", 0, [], none, none, none, none, none, none, none, none⟩ := rfl

/-- Witness for C1 at a concrete hint and currency. -/
theorem c1_parse_empty_text_partial_record_witness :
    parse "" (some "swiggy") "USD" =
      ⟨"Unknown", 0, [], none, none, none, none, none, none, none, none⟩ :=
  c1_parse_empty_text_partial_record (some "swiggy") "USD"

unseal Rat.mul Rat.inv Rat.add Rat.sub in
/-- C3 (code bug): evaluating parse on the spec scenario text
"2x Masala Dosa ₹180\n1x Filter Coffee ₹40" with hint "swiggy".  The
merchant is "Swiggy" as claimed, but the items are NOT the claimed
two-element list [Masala Dosa 2×90, Filter Coffee 1×40]: the
"1x Filter Coffee ₹40" line is discarded because the summary keyword
"fee" is a substring of "coffee", and the first line yields a second,
spurious item "x Masala Dosa" through the second pattern because the
break after a successful pattern only leaves the inner match loop.  The
subtotal is therefore 360, not the claimed 220. -/
theorem c3_scenario_actual_output :
    parse "2x Masala Dosa ₹180\n1x Filter Coffee ₹40" (some "swiggy") "INR" =
      ⟨"Swiggy", 180, [⟨"Masala Dosa", 2, 90⟩, ⟨"x Masala Dosa", 1, 180⟩],
       some "INR", some 360, some none, some none, some none, some none, some none,
       some none⟩ := by decide

unseal Rat.mul Rat.inv Rat.add Rat.sub in
/-- C4 (code bug): the single line "2x Masala Dosa ₹180" contributes TWO
items — one from the quantity pattern and a second, "x Masala Dosa", from
the name-then-amount pattern — because the break after an accepted item
("Found match, move to next line") only exits the match loop of the
current pattern, not the pattern loop. -/
theorem c4_line_contributes_two_items :
    extract_items "2x Masala Dosa ₹180" (asciiLower "2x Masala Dosa ₹180") =
      [⟨"Masala Dosa", 2, 90⟩, ⟨"x Masala Dosa", 1, 180⟩] := by decide

/-- C9 (code bug): the textual-month date shape is matched by the second
pattern (exactly one match in "12 jan 2024") but the extractor still
returns None, because the result is only built when the matched text
contains a "/" or "-" separator; the numeric shape works. -/
theorem c9_textual_date_never_returned :
    extract_date "12 jan 2024" = none
    ∧ (findAll datePat2 "12 jan 2024".data).length = 1
    ∧ extract_date "Date: 12/01/2024" = some "2024-01-12" := by
  refine ⟨by decide, by decide, by decide⟩

end BillLens
